import Mathlib

/-!
Verification of the option pricing and calibration engine
(`src/models.py` and the batch driver in `src/run_analysis.py`).

Python floats are modelled as real numbers; a raised exception is
modelled as `none` / `Option.none` at the appropriate layer.  The
standard normal cumulative distribution function (scipy's `norm.cdf`)
is modelled by its mathematical definition as the integral of the
standard normal density.
-/

open MeasureTheory

/-! ## Data model -/

/-- The `option_type` argument: the strings `'call'`, `'put'`, or any
other string (which the analytic pricer and Greeks calculator reject). -/
inductive OptType where
  | call : OptType
  | put : OptType
  | other : OptType
deriving DecidableEq, Repr

/-- The `exercise_style` argument of the lattice pricer:
`'european'` or `'american'`. -/
inductive ExStyle where
  | european : ExStyle
  | american : ExStyle
deriving DecidableEq, Repr

/-- The dictionary returned by `bsm_greeks`. -/
structure GreeksResult where
  delta : ℝ
  gamma : ℝ
  vega : ℝ
  theta : ℝ
  rho : ℝ

/-- Standard normal probability density (scipy `norm.pdf`). -/
noncomputable def normPdf (x : ℝ) : ℝ :=
  (Real.sqrt (2 * Real.pi))⁻¹ * Real.exp (-(x ^ 2) / 2)

/-- Standard normal cumulative distribution function (scipy `norm.cdf`). -/
noncomputable def normCdf (x : ℝ) : ℝ :=
  ∫ t in Set.Iic x, normPdf t

/-! ## 1. Core BSM pricer (`bsm_price`)

Both `bsm_price` and `bsm_greeks` first clamp a non-positive `sigma` to
`1e-6` and then compute the same `d1`, `d2` expressions inline; the
shared computation is named `bsmSig` / `bsmD1` / `bsmD2` here. -/

/-- The `if sigma <= 0: sigma = 1e-6` clamp of `bsm_price` / `bsm_greeks`. -/
noncomputable def bsmSig (sigma : ℝ) : ℝ :=
  if sigma ≤ 0 then 1e-6 else sigma

/-- `d1 = (np.log(S / K) + (r + 0.5 * sigma**2) * T) / (sigma * np.sqrt(T))`,
computed with the clamped volatility. -/
noncomputable def bsmD1 (S K T r sigma : ℝ) : ℝ :=
  (Real.log (S / K) + (r + 0.5 * bsmSig sigma ^ 2) * T) / (bsmSig sigma * Real.sqrt T)

/-- `d2 = d1 - sigma * np.sqrt(T)`, with the clamped volatility. -/
noncomputable def bsmD2 (S K T r sigma : ℝ) : ℝ :=
  bsmD1 S K T r sigma - bsmSig sigma * Real.sqrt T

/-- `bsm_price(S, K, T, r, sigma, option_type)` from `src/models.py`.
`none` models the raised `ValueError` for an unrecognized option type
(for `T <= 0` an unrecognized type falls through the boundary block and
still reaches the `raise`). -/
noncomputable def bsm_price (S K T r sigma : ℝ) (ot : OptType) : Option ℝ :=
  if T ≤ 0 ∧ ot = OptType.call then some (max 0 (S - K))
  else if T ≤ 0 ∧ ot = OptType.put then some (max 0 (K - S))
  else
    match ot with
    | OptType.call =>
        some (S * normCdf (bsmD1 S K T r sigma) -
          K * Real.exp (-r * T) * normCdf (bsmD2 S K T r sigma))
    | OptType.put =>
        some (K * Real.exp (-r * T) * normCdf (-bsmD2 S K T r sigma) -
          S * normCdf (-bsmD1 S K T r sigma))
    | OptType.other => none

/-! ## 2. The Greeks (`bsm_greeks`) -/

/-- `bsm_greeks(S, K, T, r, sigma, option_type)` from `src/models.py`. -/
noncomputable def bsm_greeks (S K T r sigma : ℝ) (ot : OptType) : Option GreeksResult :=
  if T ≤ 0 then some ⟨0, 0, 0, 0, 0⟩
  else
    let d1 := bsmD1 S K T r sigma
    let d2 := bsmD2 S K T r sigma
    let pdf_d1 := normPdf d1
    let gamma := pdf_d1 / (S * bsmSig sigma * Real.sqrt T)
    let vega := S * pdf_d1 * Real.sqrt T * 0.01
    match ot with
    | OptType.call =>
        some ⟨normCdf d1, gamma, vega,
          (-(S * pdf_d1 * bsmSig sigma) / (2 * Real.sqrt T) -
            r * K * Real.exp (-r * T) * normCdf d2) / 365.25,
          K * T * Real.exp (-r * T) * normCdf d2 * 0.01⟩
    | OptType.put =>
        some ⟨normCdf d1 - 1, gamma, vega,
          (-(S * pdf_d1 * bsmSig sigma) / (2 * Real.sqrt T) +
            r * K * Real.exp (-r * T) * normCdf (-d2)) / 365.25,
          -(K * T * Real.exp (-r * T) * normCdf (-d2)) * 0.01⟩
    | OptType.other => none

/-! ## 3. Implied volatility solver (`implied_volatility`)

The outer `Option` models exception propagation (a raised `ValueError`
escaping the loop); the inner `Option` is the function's own
`return sigma` / `return None`. -/

/-- The clamp applied after a Newton step:
`if sigma < 1e-3: sigma = 1e-3 elif sigma > 5: sigma = 5`. -/
noncomputable def clampSigma (s : ℝ) : ℝ :=
  if s < 1e-3 then 1e-3 else if s > 5 then 5 else s

/-- One update of `sigma` inside the `implied_volatility` loop: the
zero-vega shrink (`sigma * 0.99`, not clamped) or the Newton step
followed by the clamp.  `none` models a raised `ValueError`. -/
noncomputable def ivNext (marketPrice S K T r : ℝ) (ot : OptType) (s : ℝ) : Option ℝ := do
  let priceGuess ← bsm_price S K T r s ot
  let g ← bsm_greeks S K T r s ot
  let vega := g.vega / 0.01
  let priceDiff := priceGuess - marketPrice
  if vega = 0 then pure (s * 0.99)
  else pure (clampSigma (s - priceDiff / vega))

/-- The `for i in range(max_iter)` loop of `implied_volatility`,
with the remaining iteration count as fuel. -/
noncomputable def ivGo (marketPrice S K T r : ℝ) (ot : OptType) (tolerance : ℝ) :
    ℕ → ℝ → Option (Option ℝ)
  | 0, _ => some none
  | n + 1, s => do
    let priceGuess ← bsm_price S K T r s ot
    let _g ← bsm_greeks S K T r s ot
    if |priceGuess - marketPrice| < tolerance then some (some s)
    else do
      let s' ← ivNext marketPrice S K T r ot s
      ivGo marketPrice S K T r ot tolerance n s'

/-- `implied_volatility(market_price, S, K, T, r, option_type, max_iter, tolerance)`
from `src/models.py` (the Python defaults are `max_iter=100`, `tolerance=1e-6`). -/
noncomputable def implied_volatility (marketPrice S K T r : ℝ) (ot : OptType)
    (maxIter : ℕ) (tolerance : ℝ) : Option (Option ℝ) :=
  ivGo marketPrice S K T r ot tolerance maxIter 0.5

/-! ## 4. CRR binomial tree pricer (`crr_binomial_pricer`)

Layers of the tree are lists of node values (index `i` = number of
down-moves).  `none` models the `NameError` raised when the American
branch references the unassigned `intrinsic_value` for an unrecognized
option type. -/

/-- Terminal option value at a terminal stock price: `np.maximum` is
applied only under the `'call'` / `'put'` branches, so an unrecognized
type leaves the `np.zeros` entry as `0`. -/
noncomputable def terminalPayoff (K : ℝ) (ot : OptType) (s : ℝ) : ℝ :=
  match ot with
  | OptType.call => max 0 (s - K)
  | OptType.put => max 0 (K - s)
  | OptType.other => 0

/-- Value of one interior node during backward induction. -/
noncomputable def crrNodeValue (style : ExStyle) (ot : OptType) (K disc p sPrice vUp vDown : ℝ) :
    Option ℝ :=
  let expectedValue := disc * (p * vUp + (1 - p) * vDown)
  match style with
  | ExStyle.european => some expectedValue
  | ExStyle.american =>
    match ot with
    | OptType.call => some (max expectedValue (max 0 (sPrice - K)))
    | OptType.put => some (max expectedValue (max 0 (K - sPrice)))
    | OptType.other => none

/-- Effectful map over a list, failing at the first failing element
(the Python inner `for` loop aborts at the first raised exception). -/
def listMapM {α β : Type} (f : α → Option β) : List α → Option (List β)
  | [] => some []
  | a :: as => do
    let b ← f a
    let bs ← listMapM f as
    pure (b :: bs)

/-- One backward-induction step: from the layer at time `step + 1`
(the list `next`) to the layer at time `step`. -/
noncomputable def crrLayerStep (S K u d disc p : ℝ) (style : ExStyle) (ot : OptType)
    (step : ℕ) (next : List ℝ) : Option (List ℝ) :=
  listMapM
    (fun i => crrNodeValue style ot K disc p (S * u ^ (step - i) * d ^ i)
      (next.getD i 0) (next.getD (i + 1) 0))
    (List.range (step + 1))

/-- The `for step in range(N - 1, -1, -1)` loop: `crrLoop ... n vals`
runs the steps `n - 1, n - 2, ..., 0` starting from layer `vals`. -/
noncomputable def crrLoop (S K u d disc p : ℝ) (style : ExStyle) (ot : OptType) :
    ℕ → List ℝ → Option (List ℝ)
  | 0, vals => some vals
  | n + 1, vals => do
    let l ← crrLayerStep S K u d disc p style ot n vals
    crrLoop S K u d disc p style ot n l

/-- `crr_binomial_pricer(S, K, T, r, sigma, N, option_type, exercise_style)`
from `src/models.py`.  Note: `sigma` is used as-is, with no positivity floor. -/
noncomputable def crr_binomial_pricer (S K T r sigma : ℝ) (N : ℕ)
    (ot : OptType) (style : ExStyle) : Option ℝ :=
  let dt := T / N
  let u := Real.exp (sigma * Real.sqrt dt)
  let d := 1 / u
  let p := (Real.exp (r * dt) - d) / (u - d)
  let disc := Real.exp (-r * dt)
  let stockPricesAtExpiry := (List.range (N + 1)).map fun i => S * u ^ (N - i) * d ^ i
  let optionValues := stockPricesAtExpiry.map (terminalPayoff K ot)
  (crrLoop S K u d disc p style ot N optionValues).map fun l => l.getD 0 0

/-- Total version of `crrNodeValue` for the non-failing `(style, ot)`
combinations (the `american`/`other` value is junk, never used). -/
noncomputable def crrNodeT (style : ExStyle) (ot : OptType) (K disc p sPrice vUp vDown : ℝ) : ℝ :=
  let expectedValue := disc * (p * vUp + (1 - p) * vDown)
  match style with
  | ExStyle.european => expectedValue
  | ExStyle.american =>
    match ot with
    | OptType.call => max expectedValue (max 0 (sPrice - K))
    | OptType.put => max expectedValue (max 0 (K - sPrice))
    | OptType.other => 0

/-- Total version of `crrLayerStep`. -/
noncomputable def crrLayerT (S K u d disc p : ℝ) (style : ExStyle) (ot : OptType)
    (step : ℕ) (next : List ℝ) : List ℝ :=
  (List.range (step + 1)).map fun i =>
    crrNodeT style ot K disc p (S * u ^ (step - i) * d ^ i)
      (next.getD i 0) (next.getD (i + 1) 0)

/-- Total version of `crrLoop`. -/
noncomputable def crrLoopT (S K u d disc p : ℝ) (style : ExStyle) (ot : OptType) :
    ℕ → List ℝ → List ℝ
  | 0, vals => vals
  | n + 1, vals => crrLoopT S K u d disc p style ot n (crrLayerT S K u d disc p style ot n vals)

/-! ## 5. Calibration batch driver (`calculate_and_cache_analytics`)

Only the record fields the core consumes are modelled; the remaining
columns of a curated record pass through untouched.  A raised exception
inside the per-record loop aborts the whole batch (there is no
`try/except` in `calculate_and_cache_analytics`), which the
`Option`-valued `listMapM` reproduces. -/

/-- One curated option record, restricted to the consumed fields. -/
structure OptionRecord where
  S : ℝ
  K : ℝ
  T : ℝ
  r : ℝ
  otype : OptType
  marketPrice : ℝ

/-- One output row: the input record augmented with the five columns
`calc_iv, delta, gamma, vega, theta` appended by the driver. -/
structure CalibratedRecord where
  base : OptionRecord
  calc_iv : Option ℝ
  delta : Option ℝ
  gamma : Option ℝ
  vega : Option ℝ
  theta : Option ℝ

/-- The body of the driver's per-record loop: call the root finder with
the Python default iteration budget and tolerance, then populate the
analytics columns if it produced a volatility `> 0`. -/
noncomputable def calibrateRow (rec : OptionRecord) : Option CalibratedRecord := do
  let iv ← implied_volatility rec.marketPrice rec.S rec.K rec.T rec.r rec.otype 100 1e-6
  match iv with
  | some v =>
    if v > 0 then do
      let g ← bsm_greeks rec.S rec.K rec.T rec.r v rec.otype
      pure ⟨rec, some v, some g.delta, some g.gamma, some g.vega, some g.theta⟩
    else
      pure ⟨rec, none, none, none, none, none⟩
  | none => pure ⟨rec, none, none, none, none, none⟩

/-- `calculate_and_cache_analytics` from `src/run_analysis.py`, restricted
to its per-record calibration loop over the loaded records. -/
noncomputable def calculate_analytics (rows : List OptionRecord) :
    Option (List CalibratedRecord) :=
  listMapM calibrateRow rows

/-- The output row of a successfully processed record (total form:
junk all-absent row for the impossible failing case). -/
noncomputable def calibrateRowTotal (rec : OptionRecord) : CalibratedRecord :=
  (calibrateRow rec).getD ⟨rec, none, none, none, none, none⟩

/-- The analytics columns the driver appends to each row
(`options_df['calc_iv'] = ...` etc. in `src/run_analysis.py`). -/
noncomputable def rowColumns (c : CalibratedRecord) : List (String × Option ℝ) :=
  [("calc_iv", c.calc_iv), ("delta", c.delta), ("gamma", c.gamma),
   ("vega", c.vega), ("theta", c.theta)]

/-- Modelled from the spec: the data model's `GreeksResult` is "a fixed
set of five named sensitivities {delta, gamma, vega, theta, rho}"; this
predicate says a row's appended columns carry a value for all five. -/
def fiveGreeksPopulated (cols : List (String × Option ℝ)) : Bool :=
  ["delta", "gamma", "vega", "theta", "rho"].all fun n =>
    cols.any fun c => c.1 = n && c.2.isSome

/-! ## Properties of the standard normal distribution -/

theorem normPdf_pos (x : ℝ) : 0 < normPdf x := by
  apply mul_pos
  · rw [inv_pos]
    exact Real.sqrt_pos.mpr (by positivity)
  · exact Real.exp_pos _

theorem normPdf_even (x : ℝ) : normPdf (-x) = normPdf x := by
  simp [normPdf, neg_sq]

theorem normPdf_eq (x : ℝ) :
    normPdf x = (Real.sqrt (2 * Real.pi))⁻¹ * Real.exp (-(1 / 2) * x ^ 2) := by
  rw [normPdf]
  ring_nf

theorem integrable_normPdf : Integrable normPdf := by
  have h := (integrable_exp_neg_mul_sq (show (0 : ℝ) < 1 / 2 by norm_num)).const_mul
    ((Real.sqrt (2 * Real.pi))⁻¹)
  have he : normPdf = fun x => (Real.sqrt (2 * Real.pi))⁻¹ * Real.exp (-(1 / 2) * x ^ 2) := by
    funext x
    exact normPdf_eq x
  rw [he]
  exact h

theorem integral_normPdf : ∫ x, normPdf x = 1 := by
  have he : normPdf = fun x => (Real.sqrt (2 * Real.pi))⁻¹ * Real.exp (-(1 / 2) * x ^ 2) := by
    funext x
    exact normPdf_eq x
  rw [he, integral_mul_left, integral_gaussian]
  have h2 : Real.pi / (1 / 2) = 2 * Real.pi := by ring
  rw [h2]
  rw [inv_mul_cancel₀]
  exact ne_of_gt (Real.sqrt_pos.mpr (by positivity))

theorem normCdf_add_neg (x : ℝ) : normCdf x + normCdf (-x) = 1 := by
  have h1 : normCdf (-x) = ∫ t in Set.Ioi x, normPdf t := by
    have hc := integral_comp_neg_Iic (-x) normPdf
    simp only [neg_neg] at hc
    calc normCdf (-x) = ∫ t in Set.Iic (-x), normPdf (-t) :=
          integral_congr_ae (Filter.Eventually.of_forall fun t => (normPdf_even t).symm)
    _ = ∫ t in Set.Ioi x, normPdf t := hc
  rw [normCdf, h1, intervalIntegral.integral_Iic_add_Ioi integrable_normPdf.integrableOn
    integrable_normPdf.integrableOn, integral_normPdf]

theorem normCdf_pos (x : ℝ) : 0 < normCdf x := by
  rw [normCdf, setIntegral_pos_iff_support_of_nonneg_ae
    (Filter.Eventually.of_forall fun t => (normPdf_pos t).le) integrable_normPdf.integrableOn]
  have hs : Function.support normPdf = Set.univ :=
    Set.eq_univ_of_forall fun t => Function.mem_support.mpr (ne_of_gt (normPdf_pos t))
  rw [hs, Set.univ_inter, Real.volume_Iic]
  exact ENNReal.zero_lt_top

theorem normCdf_lt_one (x : ℝ) : normCdf x < 1 := by
  have h1 := normCdf_add_neg x
  have h2 := normCdf_pos (-x)
  linarith

theorem normCdf_strictMono : StrictMono normCdf := by
  intro x y hxy
  have hsub : normCdf y - normCdf x = ∫ t in x..y, normPdf t :=
    intervalIntegral.integral_Iic_sub_Iic integrable_normPdf.integrableOn
      integrable_normPdf.integrableOn
  have hpos : 0 < ∫ t in x..y, normPdf t :=
    intervalIntegral.intervalIntegral_pos_of_pos
      integrable_normPdf.intervalIntegrable normPdf_pos hxy
  linarith

theorem normCdf_zero : normCdf 0 = 1 / 2 := by
  have h := normCdf_add_neg 0
  rw [neg_zero] at h
  linarith

/-! ## Basic facts about the embedded operations -/

theorem bsmSig_pos (sigma : ℝ) : 0 < bsmSig sigma := by
  rw [bsmSig]
  split_ifs with h
  · norm_num
  · linarith [not_le.mp h]

theorem bsm_price_call_of_pos {T : ℝ} (S K r sigma : ℝ) (hT : 0 < T) :
    bsm_price S K T r sigma OptType.call =
      some (S * normCdf (bsmD1 S K T r sigma) -
        K * Real.exp (-r * T) * normCdf (bsmD2 S K T r sigma)) := by
  simp [bsm_price, not_le.mpr hT]

theorem bsm_price_put_of_pos {T : ℝ} (S K r sigma : ℝ) (hT : 0 < T) :
    bsm_price S K T r sigma OptType.put =
      some (K * Real.exp (-r * T) * normCdf (-bsmD2 S K T r sigma) -
        S * normCdf (-bsmD1 S K T r sigma)) := by
  simp [bsm_price, not_le.mpr hT]

theorem bsm_price_isSome (S K T r sigma : ℝ) {ot : OptType} (h : ot ≠ OptType.other) :
    (bsm_price S K T r sigma ot).isSome := by
  cases ot with
  | call => by_cases hT : T ≤ 0 <;> simp [bsm_price, hT]
  | put => by_cases hT : T ≤ 0 <;> simp [bsm_price, hT]
  | other => exact absurd rfl h

theorem bsm_greeks_call_of_pos {T : ℝ} (S K r sigma : ℝ) (hT : 0 < T) :
    bsm_greeks S K T r sigma OptType.call =
      some ⟨normCdf (bsmD1 S K T r sigma),
        normPdf (bsmD1 S K T r sigma) / (S * bsmSig sigma * Real.sqrt T),
        S * normPdf (bsmD1 S K T r sigma) * Real.sqrt T * 0.01,
        (-(S * normPdf (bsmD1 S K T r sigma) * bsmSig sigma) / (2 * Real.sqrt T) -
          r * K * Real.exp (-r * T) * normCdf (bsmD2 S K T r sigma)) / 365.25,
        K * T * Real.exp (-r * T) * normCdf (bsmD2 S K T r sigma) * 0.01⟩ := by
  simp [bsm_greeks, not_le.mpr hT]

theorem bsm_greeks_put_of_pos {T : ℝ} (S K r sigma : ℝ) (hT : 0 < T) :
    bsm_greeks S K T r sigma OptType.put =
      some ⟨normCdf (bsmD1 S K T r sigma) - 1,
        normPdf (bsmD1 S K T r sigma) / (S * bsmSig sigma * Real.sqrt T),
        S * normPdf (bsmD1 S K T r sigma) * Real.sqrt T * 0.01,
        (-(S * normPdf (bsmD1 S K T r sigma) * bsmSig sigma) / (2 * Real.sqrt T) +
          r * K * Real.exp (-r * T) * normCdf (-bsmD2 S K T r sigma)) / 365.25,
        -(K * T * Real.exp (-r * T) * normCdf (-bsmD2 S K T r sigma)) * 0.01⟩ := by
  simp [bsm_greeks, not_le.mpr hT]

theorem bsm_greeks_isSome (S K T r sigma : ℝ) {ot : OptType} (h : ot ≠ OptType.other) :
    (bsm_greeks S K T r sigma ot).isSome := by
  by_cases hT : T ≤ 0
  · simp [bsm_greeks, hT]
  · cases ot with
    | call => simp [bsm_greeks, hT]
    | put => simp [bsm_greeks, hT]
    | other => exact absurd rfl h

/-! ## Claim C1: expiry boundary of the analytic pricer -/

/-- C1: for every `S > 0`, `K > 0`, any `r` and `sigma`, and option type
call or put, `bsm_price` with `T <= 0` returns the intrinsic value
(`max(0, S-K)` for a call, `max(0, K-S)` for a put); the result does not
depend on `r` or `sigma`. -/
theorem C1_price_at_expiry_is_intrinsic (S K T r sigma : ℝ)
    (hS : 0 < S) (hK : 0 < K) (hT : T ≤ 0) :
    bsm_price S K T r sigma OptType.call = some (max 0 (S - K)) ∧
    bsm_price S K T r sigma OptType.put = some (max 0 (K - S)) := by
  refine ⟨?_, ?_⟩ <;> simp [bsm_price, hT]

/-- Witness for C1 at `S = 3`, `K = 1`, `T = 0`, `r = 5`, `sigma = -2`. -/
theorem C1_witness :
    bsm_price 3 1 0 5 (-2) OptType.call = some 2 ∧
    bsm_price 3 1 0 5 (-2) OptType.put = some 0 := by
  have h := C1_price_at_expiry_is_intrinsic 3 1 0 5 (-2) (by norm_num) (by norm_num) le_rfl
  refine ⟨?_, ?_⟩
  · rw [h.1]
    norm_num
  · rw [h.2]
    norm_num

/-! ## Claim C2: put-call parity -/

/-- C2: for every `S > 0`, `K > 0`, `T > 0` and any `r`, `sigma`, the call
price minus the put price equals `S - K·e^(-rT)` within the tolerance
`1e-8` (in the real-number model the identity is exact). -/
theorem C2_put_call_parity (S K T r sigma : ℝ) (hS : 0 < S) (hK : 0 < K) (hT : 0 < T) :
    |(bsm_price S K T r sigma OptType.call).getD 0 -
      (bsm_price S K T r sigma OptType.put).getD 0 -
      (S - K * Real.exp (-r * T))| < 1e-8 := by
  rw [bsm_price_call_of_pos S K r sigma hT, bsm_price_put_of_pos S K r sigma hT]
  simp only [Option.getD_some]
  have h1 := normCdf_add_neg (bsmD1 S K T r sigma)
  have h2 := normCdf_add_neg (bsmD2 S K T r sigma)
  have h0 : S * normCdf (bsmD1 S K T r sigma) -
      K * Real.exp (-r * T) * normCdf (bsmD2 S K T r sigma) -
      (K * Real.exp (-r * T) * normCdf (-bsmD2 S K T r sigma) -
        S * normCdf (-bsmD1 S K T r sigma)) -
      (S - K * Real.exp (-r * T)) = 0 := by
    linear_combination S * h1 - K * Real.exp (-r * T) * h2
  rw [h0]
  norm_num

/-- Witness for C2 at `S = 100`, `K = 100`, `T = 1`, `r = 1/20`, `sigma = 1/5`. -/
theorem C2_witness :
    |(bsm_price 100 100 1 (1/20) (1/5) OptType.call).getD 0 -
      (bsm_price 100 100 1 (1/20) (1/5) OptType.put).getD 0 -
      (100 - 100 * Real.exp (-(1/20) * 1))| < 1e-8 :=
  C2_put_call_parity 100 100 1 (1/20) (1/5) (by norm_num) (by norm_num) (by norm_num)

/-! ## Claim C9: Greeks sanity -/

/-- C9: for an at-the-money call (`S = K > 0`) with `r > 0`, `T > 0`, the
delta returned by `bsm_greeks` lies strictly in `(1/2, 1)`; and for any
valid input with `T > 0` (call or put), the returned gamma is strictly
positive. -/
theorem C9_greeks_sanity (S K T r sigma : ℝ) (hS : 0 < S) (hK : 0 < K) (hT : 0 < T) :
    (∀ g : GreeksResult, 0 < r → bsm_greeks S S T r sigma OptType.call = some g →
      1 / 2 < g.delta ∧ g.delta < 1) ∧
    (∀ (ot : OptType) (g : GreeksResult), ot ≠ OptType.other →
      bsm_greeks S K T r sigma ot = some g → 0 < g.gamma) := by
  have hsig := bsmSig_pos sigma
  have hsqT : 0 < Real.sqrt T := Real.sqrt_pos.mpr hT
  constructor
  · intro g hr hg
    rw [bsm_greeks_call_of_pos S S r sigma hT] at hg
    obtain rfl := Option.some.inj hg
    have hd1 : 0 < bsmD1 S S T r sigma := by
      rw [bsmD1, div_self (ne_of_gt hS), Real.log_one]
      apply div_pos
      · have hs2 : 0 < bsmSig sigma ^ 2 := pow_pos hsig 2
        have hnum : 0 < r + 0.5 * bsmSig sigma ^ 2 := by nlinarith
        have := mul_pos hnum hT
        linarith
      · exact mul_pos hsig hsqT
    constructor
    · have := normCdf_strictMono hd1
      rw [normCdf_zero] at this
      exact this
    · exact normCdf_lt_one _
  · intro ot g hot hg
    have hden : 0 < S * bsmSig sigma * Real.sqrt T := mul_pos (mul_pos hS hsig) hsqT
    cases ot with
    | call =>
      rw [bsm_greeks_call_of_pos S K r sigma hT] at hg
      obtain rfl := Option.some.inj hg
      exact div_pos (normPdf_pos _) hden
    | put =>
      rw [bsm_greeks_put_of_pos S K r sigma hT] at hg
      obtain rfl := Option.some.inj hg
      exact div_pos (normPdf_pos _) hden
    | other => exact absurd rfl hot

/-- Witness for C9 at `S = K = 1`, `T = 1`, `r = 1`, `sigma = 1`. -/
theorem C9_witness :
    1 / 2 < normCdf (bsmD1 1 1 1 1 1) ∧ normCdf (bsmD1 1 1 1 1 1) < 1 ∧
    0 < normPdf (bsmD1 1 1 1 1 1) / (1 * bsmSig 1 * Real.sqrt 1) := by
  have h := C9_greeks_sanity 1 1 1 1 1 (by norm_num) (by norm_num) (by norm_num)
  have hg := bsm_greeks_call_of_pos (T := 1) 1 1 1 1 (by norm_num)
  have h1 := h.1 _ (by norm_num) hg
  have h2 := h.2 OptType.call _ (by simp) hg
  exact ⟨h1.1, h1.2, h2⟩

/-! ## Loop lemmas for the implied-volatility solver -/

theorem ivNext_isSome (mp S K T r s : ℝ) {ot : OptType} (h : ot ≠ OptType.other) :
    (ivNext mp S K T r ot s).isSome := by
  obtain ⟨p, hp⟩ := Option.isSome_iff_exists.mp (bsm_price_isSome S K T r s h)
  obtain ⟨g, hg⟩ := Option.isSome_iff_exists.mp (bsm_greeks_isSome S K T r s h)
  rw [ivNext, hp, hg]
  show (if g.vega / 0.01 = 0 then (pure (s * 0.99) : Option ℝ)
    else pure (clampSigma (s - (p - mp) / (g.vega / 0.01)))).isSome = true
  split_ifs <;> rfl

theorem ivGo_of_no_converge (mp S K T r tol : ℝ) {ot : OptType} (h : ot ≠ OptType.other)
    (hnc : ∀ s p, bsm_price S K T r s ot = some p → ¬ |p - mp| < tol) :
    ∀ n s, ivGo mp S K T r ot tol n s = some none := by
  intro n
  induction n with
  | zero => intro s; rfl
  | succ n ih =>
    intro s
    obtain ⟨p, hp⟩ := Option.isSome_iff_exists.mp (bsm_price_isSome S K T r s h)
    obtain ⟨g, hg⟩ := Option.isSome_iff_exists.mp (bsm_greeks_isSome S K T r s h)
    obtain ⟨s', hs'⟩ := Option.isSome_iff_exists.mp (ivNext_isSome mp S K T r s h)
    rw [ivGo, hp, hg, hs']
    show (if |p - mp| < tol then some (some s)
      else ivGo mp S K T r ot tol n s') = some none
    rw [if_neg (hnc s p hp)]
    exact ih s'

/-! ## Claim C4: the solver exhausts its budget and returns `None` -/

/-- C4: whenever no volatility can bring the model price within
tolerance of the target (e.g. a negative market price), the
`implied_volatility` loop runs all `maxIter` iterations and returns the
Python `None` (`some none`); in particular it neither raises an
exception (`none`) nor diverges. -/
theorem C4_iv_exhausts_budget (mp S K T r tol : ℝ) (ot : OptType) (maxIter : ℕ)
    (hot : ot = OptType.call ∨ ot = OptType.put)
    (hnc : ∀ s p, bsm_price S K T r s ot = some p → ¬ |p - mp| < tol) :
    implied_volatility mp S K T r ot maxIter tol = some none := by
  have h : ot ≠ OptType.other := by
    rcases hot with h | h <;> subst h <;> simp
  exact ivGo_of_no_converge mp S K T r tol h hnc maxIter 0.5

/-- Witness for C4: a call on `S = K = 1` at expiry (`T = 0`) always has
model price `0`, so the unattainable target `-1` exhausts the budget. -/
theorem C4_witness :
    implied_volatility (-1) 1 1 0 0 OptType.call 3 (1e-6) = some none := by
  apply C4_iv_exhausts_budget (-1) 1 1 0 0 (1e-6) OptType.call 3 (Or.inl rfl)
  intro s p hp
  have h0 : bsm_price 1 1 0 0 s OptType.call = some 0 := by
    simp [bsm_price]
  rw [h0] at hp
  obtain rfl := Option.some.inj hp
  norm_num

/-! ## Backward-induction lemmas for the lattice pricer -/

theorem getD_map_range (f : ℕ → ℝ) (n i : ℕ) :
    ((List.range n).map f).getD i 0 = if i < n then f i else 0 := by
  by_cases h : i < n
  · rw [if_pos h, List.getD_eq_getElem?_getD, List.getElem?_map, List.getElem?_range h]
    rfl
  · rw [if_neg h, List.getD_eq_getElem?_getD, List.getElem?_eq_none (by simpa using not_lt.mp h)]
    rfl

theorem listMapM_eq_map {α β : Type} (f : α → Option β) (g : α → β) (l : List α)
    (h : ∀ a ∈ l, f a = some (g a)) : listMapM f l = some (l.map g) := by
  induction l with
  | nil => rfl
  | cons a as ih =>
    rw [listMapM, h a (by simp)]
    rw [ih fun x hx => h x (by simp [hx])]
    rfl

theorem crrNodeValue_eq (style : ExStyle) (ot : OptType)
    (h : style = ExStyle.european ∨ ot ≠ OptType.other) (K disc p sp vu vd : ℝ) :
    crrNodeValue style ot K disc p sp vu vd = some (crrNodeT style ot K disc p sp vu vd) := by
  cases style with
  | european => rfl
  | american =>
    cases ot with
    | call => rfl
    | put => rfl
    | other =>
      rcases h with h | h
      · exact ExStyle.noConfusion h
      · exact absurd rfl h

theorem crrLayerStep_eq (S K u d disc p : ℝ) (style : ExStyle) (ot : OptType)
    (h : style = ExStyle.european ∨ ot ≠ OptType.other) (step : ℕ) (next : List ℝ) :
    crrLayerStep S K u d disc p style ot step next =
      some (crrLayerT S K u d disc p style ot step next) := by
  exact listMapM_eq_map _ _ _ fun i _ => crrNodeValue_eq style ot h K disc p _ _ _

theorem crrLoop_eq (S K u d disc p : ℝ) (style : ExStyle) (ot : OptType)
    (h : style = ExStyle.european ∨ ot ≠ OptType.other) :
    ∀ (n : ℕ) (vals : List ℝ),
      crrLoop S K u d disc p style ot n vals =
        some (crrLoopT S K u d disc p style ot n vals) := by
  intro n
  induction n with
  | zero => intro vals; rfl
  | succ n ih =>
    intro vals
    rw [crrLoop, crrLayerStep_eq S K u d disc p style ot h n vals]
    exact ih (crrLayerT S K u d disc p style ot n vals)

theorem crrNodeT_european (ot : OptType) (K disc p sp vu vd : ℝ) :
    crrNodeT ExStyle.european ot K disc p sp vu vd = disc * (p * vu + (1 - p) * vd) := rfl

theorem crrLoopT_european_zero (S K u d disc p : ℝ) (ot : OptType) :
    ∀ (n : ℕ) (vals : List ℝ), (∀ i, vals.getD i 0 = 0) →
      ∀ i, (crrLoopT S K u d disc p ExStyle.european ot n vals).getD i 0 = 0 := by
  intro n
  induction n with
  | zero => intro vals h i; exact h i
  | succ n ih =>
    intro vals h i
    rw [crrLoopT]
    apply ih
    intro j
    rw [crrLayerT, getD_map_range]
    split_ifs with hj
    · rw [crrNodeT_european, h j, h (j + 1)]
      ring
    · rfl

/-! ## Claim C10: the lattice tolerates an unknown option type -/

/-- C10: unlike `bsm_price` and `bsm_greeks` (which raise `ValueError`,
modelled as `none`), `crr_binomial_pricer` with an unrecognized option
type and European exercise does not fail: the terminal layer stays
all-zero and the returned price is `0`. -/
theorem C10_lattice_unknown_type_returns_zero (S K T r sigma : ℝ) (N : ℕ)
    (hS : 0 < S) (hK : 0 < K) (hT : 0 < T) (hsig : 0 < sigma) (hN : 0 < N) :
    crr_binomial_pricer S K T r sigma N OptType.other ExStyle.european = some 0 ∧
    (∀ s, terminalPayoff K OptType.other s = 0) ∧
    bsm_price S K T r sigma OptType.other = none ∧
    bsm_greeks S K T r sigma OptType.other = none := by
  refine ⟨?_, fun s => rfl, ?_, ?_⟩
  · simp only [crr_binomial_pricer]
    rw [crrLoop_eq _ _ _ _ _ _ _ _ (Or.inl rfl)]
    rw [Option.map_some']
    have hz := crrLoopT_european_zero
      S K (Real.exp (sigma * Real.sqrt (T / N))) (1 / Real.exp (sigma * Real.sqrt (T / N)))
      (Real.exp (-r * (T / N)))
      ((Real.exp (r * (T / N)) - 1 / Real.exp (sigma * Real.sqrt (T / N))) /
        (Real.exp (sigma * Real.sqrt (T / N)) - 1 / Real.exp (sigma * Real.sqrt (T / N))))
      OptType.other N
      (((List.range (N + 1)).map fun i =>
          S * Real.exp (sigma * Real.sqrt (T / N)) ^ (N - i) *
            (1 / Real.exp (sigma * Real.sqrt (T / N))) ^ i).map
        (terminalPayoff K OptType.other))
      ?_ 0
    · rw [hz]
    · intro i
      rw [List.map_map, getD_map_range]
      split_ifs <;> rfl
  · simp [bsm_price, not_le.mpr hT]
  · simp [bsm_greeks, not_le.mpr hT]

/-- Witness for C10 at `S = K = T = sigma = 1`, `r = 0`, `N = 2`. -/
theorem C10_witness :
    crr_binomial_pricer 1 1 1 0 1 2 OptType.other ExStyle.european = some 0 ∧
    (∀ s, terminalPayoff 1 OptType.other s = 0) ∧
    bsm_price 1 1 1 0 1 OptType.other = none ∧
    bsm_greeks 1 1 1 0 1 OptType.other = none :=
  C10_lattice_unknown_type_returns_zero 1 1 1 0 1 2 (by norm_num) (by norm_num)
    (by norm_num) (by norm_num) (by norm_num)

/-! ## Claim C3: the volatility floor (corrected)

`bsm_price` and `bsm_greeks` do floor a non-positive `sigma` at `1e-6`,
but `crr_binomial_pricer` uses `sigma` as-is: with `sigma = 0` its
up-factor and down-factor coincide and the risk-neutral probability is a
division by zero, so its result differs from the floored call. -/

/-- C3 (amended): in the analytic pricer and the Greeks calculator a
non-positive `sigma` is replaced by the strictly positive epsilon `1e-6`
before use, so for `sigma <= 0` and `T > 0` both return exactly the
result of the call with the epsilon floor; the lattice pricer applies no
such floor. -/
theorem C3_sigma_floor_analytic_only (S K T r sigma : ℝ) (ot : OptType)
    (hsig : sigma ≤ 0) (hT : 0 < T) :
    bsm_price S K T r sigma ot = bsm_price S K T r (1e-6) ot ∧
    bsm_greeks S K T r sigma ot = bsm_greeks S K T r (1e-6) ot := by
  have hs : bsmSig sigma = bsmSig 1e-6 := by
    rw [bsmSig, bsmSig, if_pos hsig, if_neg (by norm_num)]
  have hd1 : ∀ S' K', bsmD1 S' K' T r sigma = bsmD1 S' K' T r 1e-6 := by
    intro S' K'
    rw [bsmD1, bsmD1, hs]
  have hd2 : ∀ S' K', bsmD2 S' K' T r sigma = bsmD2 S' K' T r 1e-6 := by
    intro S' K'
    rw [bsmD2, bsmD2, hd1, hs]
  constructor
  · cases ot <;> simp [bsm_price, hd1, hd2, not_le.mpr hT]
  · cases ot <;> simp [bsm_greeks, hd1, hd2, hs, not_le.mpr hT]

/-- Witness for the amended C3 at `S = K = T = 1`, `r = 0`, `sigma = 0`. -/
theorem C3_witness :
    bsm_price 1 1 1 0 0 OptType.call = bsm_price 1 1 1 0 (1e-6) OptType.call ∧
    bsm_greeks 1 1 1 0 0 OptType.call = bsm_greeks 1 1 1 0 (1e-6) OptType.call :=
  C3_sigma_floor_analytic_only 1 1 1 0 0 OptType.call (by norm_num) (by norm_num)

/-- Counterexample to C3 as stated: the lattice pricer called with
`sigma = 0` does not return the same result as with the floor `1e-6`
(at `S = K = T = 1`, `r = 0`, `N = 1` it returns `0`, while the floored
call returns a strictly positive price). -/
theorem C3_counterexample :
    crr_binomial_pricer 1 1 1 0 0 1 OptType.call ExStyle.european ≠
      crr_binomial_pricer 1 1 1 0 (1e-6) 1 OptType.call ExStyle.european := by
  have hL : crr_binomial_pricer 1 1 1 0 0 1 OptType.call ExStyle.european = some 0 := by
    simp only [crr_binomial_pricer]
    rw [crrLoop_eq _ _ _ _ _ _ _ _ (Or.inl rfl)]
    norm_num [crrLoopT, crrLayerT, crrNodeT, terminalPayoff, List.range_succ, Real.exp_zero,
      Real.sqrt_one]
  obtain ⟨x, hR, hx⟩ :
      ∃ x, crr_binomial_pricer 1 1 1 0 (1e-6) 1 OptType.call ExStyle.european = some x ∧
        0 < x := by
    simp only [crr_binomial_pricer]
    rw [crrLoop_eq _ _ _ _ _ _ _ _ (Or.inl rfl)]
    norm_num [crrLoopT, crrLayerT, crrNodeT, terminalPayoff, List.range_succ, Real.sqrt_one,
      Real.exp_zero]
    have he1 := Real.add_one_le_exp (1/1000000 : ℝ)
    have he : (1:ℝ) < Real.exp (1/1000000) := by linarith
    have hepos : (0:ℝ) < Real.exp (1/1000000) := by linarith
    have hinv : (Real.exp (1/1000000 : ℝ))⁻¹ < 1 := inv_lt_one_of_one_lt₀ he
    have hinvpos : (0:ℝ) < (Real.exp (1/1000000 : ℝ))⁻¹ := inv_pos.mpr hepos
    rw [show (0:ℝ) ⊔ ((Real.exp (1/1000000 : ℝ))⁻¹ - 1) = 0 from max_eq_left (by linarith)]
    have hp : (0:ℝ) < (1 - (Real.exp (1/1000000 : ℝ))⁻¹) /
        (Real.exp (1/1000000 : ℝ) - (Real.exp (1/1000000 : ℝ))⁻¹) :=
      div_pos (by linarith) (by linarith)
    nlinarith [mul_pos hp (show (0:ℝ) < Real.exp (1/1000000) - 1 by linarith)]
  rw [hL, hR]
  intro h
  exact (ne_of_gt hx) (Option.some.inj h).symm

/-! ## Claim C5: clamping of the sigma iterates (corrected)

The Newton step is followed by the clamp into `[1e-3, 5]`, but the
zero-vega shrink `sigma * 0.99` is followed by `continue`, skipping the
clamp; repeated shrinks (e.g. from a `T = 0` record, where vega is `0`)
drive `sigma` below `1e-3` once the iteration budget allows it. -/

theorem clampSigma_bounds (x : ℝ) : 1e-3 ≤ clampSigma x ∧ clampSigma x ≤ 5 := by
  rw [clampSigma]
  split_ifs with h1 h2
  · norm_num
  · norm_num
  · exact ⟨not_lt.mp h1, not_lt.mp h2⟩

/-- C5 (amended): after each update of `sigma` inside an iteration,
either the update was the zero-vega shrink and the new `sigma` is
`0.99` times the old one (not clamped), or it was a Newton step and the
new `sigma` lies in `[1e-3, 5]`. -/
theorem C5_update_clamped_or_shrink (mp S K T r s s' : ℝ) (ot : OptType)
    (h : ivNext mp S K T r ot s = some s') :
    s' = s * 0.99 ∨ (1e-3 ≤ s' ∧ s' ≤ 5) := by
  rw [ivNext] at h
  cases hp : bsm_price S K T r s ot with
  | none => rw [hp] at h; simp at h
  | some p =>
    rw [hp] at h
    cases hg : bsm_greeks S K T r s ot with
    | none => rw [hg] at h; simp at h
    | some g =>
      rw [hg] at h
      have h' : (if g.vega / 0.01 = 0 then (pure (s * 0.99) : Option ℝ)
          else pure (clampSigma (s - (p - mp) / (g.vega / 0.01)))) = some s' := h
      by_cases hv : g.vega / 0.01 = 0
      · rw [if_pos hv] at h'
        exact Or.inl (Option.some.inj h').symm
      · rw [if_neg hv] at h'
        obtain rfl := (Option.some.inj h').symm
        exact Or.inr (clampSigma_bounds _)

/-- Witness for the amended C5: at `T = 0` the vega is `0`, so the
update from `sigma = 0.5` is the shrink to `0.495`. -/
theorem C5_witness :
    (0.495 : ℝ) = 0.5 * 0.99 ∨ (1e-3 ≤ (0.495 : ℝ) ∧ (0.495 : ℝ) ≤ 5) := by
  apply C5_update_clamped_or_shrink (-1) 1 1 0 0 0.5 0.495 OptType.call
  have h0 : bsm_price 1 1 0 0 0.5 OptType.call = some 0 := by
    simp [bsm_price]
  have hgg : bsm_greeks 1 1 0 0 0.5 OptType.call = some ⟨0, 0, 0, 0, 0⟩ := by
    simp [bsm_greeks]
  rw [ivNext, h0, hgg]
  norm_num

/-- Counterexample to C5 as stated: on the run with `marketPrice = -1`,
`S = K = 1`, `T = 0`, `r = 0` (a call), every iteration takes the
zero-vega shrink, and after 619 updates `sigma = 0.5 * 0.99^619 < 1e-3`,
outside `[1e-3, 5]`; with `maxIterations = 700` the loop really performs
these updates and finishes with `None`. -/
theorem C5_counterexample :
    ((fun s => (ivNext (-1) 1 1 0 0 OptType.call s).getD 0)^[619] 0.5 < 1e-3) ∧
    implied_volatility (-1) 1 1 0 0 OptType.call 700 (1e-6) = some none := by
  have hstep : ∀ s : ℝ, ivNext (-1) 1 1 0 0 OptType.call s = some (s * 0.99) := by
    intro s
    have h0 : bsm_price 1 1 0 0 s OptType.call = some 0 := by
      simp [bsm_price]
    have hgg : bsm_greeks 1 1 0 0 s OptType.call = some ⟨0, 0, 0, 0, 0⟩ := by
      simp [bsm_greeks]
    rw [ivNext, h0, hgg]
    norm_num
  constructor
  · have hiter : ∀ n : ℕ,
        (fun s => (ivNext (-1) 1 1 0 0 OptType.call s).getD 0)^[n] 0.5 = 0.5 * 0.99 ^ n := by
      intro n
      induction n with
      | zero => simp
      | succ n ih =>
        rw [Function.iterate_succ_apply', ih, hstep, Option.getD_some, pow_succ]
        ring
    rw [hiter]
    norm_num
  · apply ivGo_of_no_converge (-1) 1 1 0 0 (1e-6) (by simp)
    intro s p hp
    have h0 : bsm_price 1 1 0 0 s OptType.call = some 0 := by
      simp [bsm_price]
    rw [h0] at hp
    obtain rfl := Option.some.inj hp
    norm_num

/-! ## Totality of the per-record calibration -/

theorem option_some_getD {α : Type} (o : Option α) (d : α) (h : o.isSome) :
    o = some (o.getD d) := by
  cases o with
  | none => simp at h
  | some a => rfl

theorem ivGo_isSome (mp S K T r tol : ℝ) {ot : OptType} (h : ot ≠ OptType.other) :
    ∀ n s, (ivGo mp S K T r ot tol n s).isSome := by
  intro n
  induction n with
  | zero => intro s; rfl
  | succ n ih =>
    intro s
    obtain ⟨p, hp⟩ := Option.isSome_iff_exists.mp (bsm_price_isSome S K T r s h)
    obtain ⟨g, hg⟩ := Option.isSome_iff_exists.mp (bsm_greeks_isSome S K T r s h)
    obtain ⟨s', hs'⟩ := Option.isSome_iff_exists.mp (ivNext_isSome mp S K T r s h)
    rw [ivGo, hp, hg, hs']
    show (if |p - mp| < tol then some (some s) else ivGo mp S K T r ot tol n s').isSome = true
    split_ifs
    · rfl
    · exact ih s'

theorem calibrateRow_isSome (rec : OptionRecord) (h : rec.otype ≠ OptType.other) :
    (calibrateRow rec).isSome := by
  obtain ⟨iv, hiv⟩ := Option.isSome_iff_exists.mp
    (ivGo_isSome rec.marketPrice rec.S rec.K rec.T rec.r (1e-6) h 100 0.5)
  rw [calibrateRow]
  rw [show implied_volatility rec.marketPrice rec.S rec.K rec.T rec.r rec.otype 100 1e-6 =
    some iv from hiv]
  cases iv with
  | none => rfl
  | some v =>
    show (if v > 0 then (bsm_greeks rec.S rec.K rec.T rec.r v rec.otype).bind fun g =>
        (some ⟨rec, some v, some g.delta, some g.gamma, some g.vega, some g.theta⟩ :
          Option CalibratedRecord)
      else some ⟨rec, none, none, none, none, none⟩).isSome = true
    by_cases hv : v > 0
    · rw [if_pos hv]
      obtain ⟨g, hg⟩ := Option.isSome_iff_exists.mp
        (bsm_greeks_isSome rec.S rec.K rec.T rec.r v h)
      rw [hg]
      rfl
    · rw [if_neg hv]
      rfl

theorem calibrateRow_some (rec : OptionRecord) (h : rec.otype ≠ OptType.other) :
    calibrateRow rec = some (calibrateRowTotal rec) :=
  option_some_getD _ _ (calibrateRow_isSome rec h)

theorem calculate_analytics_eq_map (rows : List OptionRecord)
    (h : ∀ rec ∈ rows, rec.otype ≠ OptType.other) :
    calculate_analytics rows = some (rows.map calibrateRowTotal) :=
  listMapM_eq_map _ _ _ fun rec hrec => calibrateRow_some rec (h rec hrec)

/-! ## Concrete record evaluations used below

The "good" record `S = 1`, `K = 2`, `T = 0`, `r = 0`, a call quoted at
`marketPrice = 0`: its model price at expiry is `0`, so the solver
converges on the first iteration and returns the seed `0.5`.  The "bad"
record carries an unrecognized option type, so the first pricer call
raises. -/

theorem goodRow_iv : implied_volatility 0 1 2 0 0 OptType.call 100 (1e-6) = some (some 0.5) := by
  rw [implied_volatility, show (100:ℕ) = 99 + 1 from rfl, ivGo]
  have h0 : bsm_price 1 2 0 0 0.5 OptType.call = some 0 := by
    norm_num [bsm_price]
  have hgg : bsm_greeks 1 2 0 0 0.5 OptType.call = some ⟨0, 0, 0, 0, 0⟩ := by
    simp [bsm_greeks]
  rw [h0, hgg]
  norm_num

theorem goodRow_calibrate :
    calibrateRow ⟨1, 2, 0, 0, OptType.call, 0⟩ =
      some ⟨⟨1, 2, 0, 0, OptType.call, 0⟩, some 0.5, some 0, some 0, some 0, some 0⟩ := by
  have hgg : bsm_greeks 1 2 0 0 0.5 OptType.call = some ⟨0, 0, 0, 0, 0⟩ := by
    simp [bsm_greeks]
  rw [calibrateRow, goodRow_iv]
  simp only [Option.pure_def, Option.bind_eq_bind, Option.some_bind]
  rw [if_pos (by norm_num : (0.5:ℝ) > 0), hgg]
  rfl

theorem badRow_iv : ∀ maxIter, 0 < maxIter →
    implied_volatility 0 1 1 0 0 OptType.other maxIter (1e-6) = none := by
  intro maxIter h
  obtain ⟨n, rfl⟩ := Nat.exists_eq_succ_of_ne_zero (Nat.pos_iff_ne_zero.mp h)
  rw [implied_volatility, ivGo]
  have h0 : bsm_price 1 1 0 0 0.5 OptType.other = none := by
    simp [bsm_price]
  rw [h0]
  rfl

/-! ## Claim C7: failure confinement in the batch driver (corrected)

The per-record loop has no `try/except`: non-convergence is handled
per-record (absent analytics for that row), but a raised
`ValueError` from an unrecognized option type propagates and aborts
the whole batch, losing the outputs of every other record. -/

/-- C7 (amended): when every record's option type is recognized, the
batch driver cannot abort: it produces an output collection with one
row per input record (root-finding non-convergence only makes that
row's analytics absent); an unrecognized option type, however, aborts
the whole batch rather than only its own record. -/
theorem C7_batch_survives_valid_types (rows : List OptionRecord)
    (h : ∀ rec ∈ rows, rec.otype ≠ OptType.other) :
    ∃ out, calculate_analytics rows = some out ∧ out.length = rows.length :=
  ⟨rows.map calibrateRowTotal, calculate_analytics_eq_map rows h, List.length_map _ _⟩

/-- Witness for the amended C7: a two-record batch of recognized types. -/
theorem C7_witness :
    (calculate_analytics [⟨1, 2, 0, 0, OptType.call, 0⟩,
      ⟨2, 2, 1, 0, OptType.put, 3⟩]).isSome = true := by
  obtain ⟨out, hout, hlen⟩ := C7_batch_survives_valid_types
    [⟨1, 2, 0, 0, OptType.call, 0⟩, ⟨2, 2, 1, 0, OptType.put, 3⟩] (by
      intro rec hrec
      rcases List.mem_cons.mp hrec with rfl | h2
      · simp
      · rcases List.mem_singleton.mp h2 with rfl
        simp)
  rw [hout]
  rfl

/-- Counterexample to C7 as stated: a batch whose first record has an
unrecognized option type returns no output at all — the failure is not
confined to that record, and the second (well-formed) record, which on
its own produces a row, gets no output. -/
theorem C7_counterexample :
    calculate_analytics [⟨1, 1, 0, 0, OptType.other, 0⟩, ⟨1, 2, 0, 0, OptType.call, 0⟩] =
      none ∧
    calculate_analytics [⟨1, 2, 0, 0, OptType.call, 0⟩] =
      some [⟨⟨1, 2, 0, 0, OptType.call, 0⟩, some 0.5, some 0, some 0, some 0, some 0⟩] := by
  constructor
  · rw [calculate_analytics, listMapM]
    have hbad : calibrateRow ⟨1, 1, 0, 0, OptType.other, 0⟩ = none := by
      rw [calibrateRow, badRow_iv 100 (by norm_num)]
      rfl
    rw [hbad]
    rfl
  · rw [calculate_analytics, listMapM, goodRow_calibrate]
    rfl

/-! ## Claim C8: shape of the driver's output (corrected)

The driver stores `calc_iv` and only four Greeks (`delta`, `gamma`,
`vega`, `theta`); `rho` is computed by `bsm_greeks` but never stored,
so "the five Greeks" of the spec's `GreeksResult` are not all
populated even for a converged record. -/

/-- C8 (amended): for a batch of recognized option types the driver
produces exactly one output row per input record, in input order; for
each record, if the root finder returns a volatility `v > 0` the row
carries `v` and the four stored Greeks (delta, gamma, vega, theta)
computed from `v`, and if it returns `None` the implied volatility and
all stored Greeks are absent together. -/
theorem C8_driver_contract (rows : List OptionRecord)
    (h : ∀ rec ∈ rows, rec.otype ≠ OptType.other) :
    calculate_analytics rows = some (rows.map calibrateRowTotal) ∧
    (∀ rec ∈ rows, ∀ v : ℝ,
      implied_volatility rec.marketPrice rec.S rec.K rec.T rec.r rec.otype 100 1e-6 =
        some (some v) → v > 0 →
      ∃ g, bsm_greeks rec.S rec.K rec.T rec.r v rec.otype = some g ∧
        calibrateRowTotal rec =
          ⟨rec, some v, some g.delta, some g.gamma, some g.vega, some g.theta⟩) ∧
    (∀ rec ∈ rows,
      implied_volatility rec.marketPrice rec.S rec.K rec.T rec.r rec.otype 100 1e-6 =
        some none →
      calibrateRowTotal rec = ⟨rec, none, none, none, none, none⟩) := by
  refine ⟨calculate_analytics_eq_map rows h, ?_, ?_⟩
  · intro rec hrec v hiv hv
    obtain ⟨g, hg⟩ := Option.isSome_iff_exists.mp
      (bsm_greeks_isSome rec.S rec.K rec.T rec.r v (h rec hrec))
    refine ⟨g, hg, ?_⟩
    have hrow : calibrateRow rec =
        some ⟨rec, some v, some g.delta, some g.gamma, some g.vega, some g.theta⟩ := by
      rw [calibrateRow, hiv]
      show (if v > 0 then (bsm_greeks rec.S rec.K rec.T rec.r v rec.otype).bind fun g =>
          (some ⟨rec, some v, some g.delta, some g.gamma, some g.vega, some g.theta⟩ :
            Option CalibratedRecord)
        else some ⟨rec, none, none, none, none, none⟩) =
        some ⟨rec, some v, some g.delta, some g.gamma, some g.vega, some g.theta⟩
      rw [if_pos hv, hg]
      rfl
    rw [calibrateRowTotal, hrow]
    rfl
  · intro rec hrec hiv
    have hrow : calibrateRow rec = some ⟨rec, none, none, none, none, none⟩ := by
      rw [calibrateRow, hiv]
      rfl
    rw [calibrateRowTotal, hrow]
    rfl

/-- Witness for the amended C8: the one-record batch of the good record. -/
theorem C8_witness :
    calculate_analytics [⟨1, 2, 0, 0, OptType.call, 0⟩] =
      some ([⟨1, 2, 0, 0, OptType.call, 0⟩].map calibrateRowTotal) :=
  (C8_driver_contract [⟨1, 2, 0, 0, OptType.call, 0⟩] (by
    intro rec hrec
    rcases List.mem_singleton.mp hrec with rfl
    simp)).1

/-- Counterexample to C8 as stated: the good record converges with
volatility `0.5 > 0`, yet its output row does not populate "the five
Greeks" — the appended columns are `calc_iv, delta, gamma, vega, theta`
and carry no `rho`. -/
theorem C8_counterexample :
    implied_volatility 0 1 2 0 0 OptType.call 100 (1e-6) = some (some 0.5) ∧ (0.5:ℝ) > 0 ∧
    calibrateRow ⟨1, 2, 0, 0, OptType.call, 0⟩ =
      some ⟨⟨1, 2, 0, 0, OptType.call, 0⟩, some 0.5, some 0, some 0, some 0, some 0⟩ ∧
    fiveGreeksPopulated (rowColumns ⟨⟨1, 2, 0, 0, OptType.call, 0⟩, some 0.5, some 0, some 0,
      some 0, some 0⟩) = false :=
  ⟨goodRow_iv, by norm_num, goodRow_calibrate, by decide⟩

/-! ## Claim C6: early-exercise premium (corrected)

With the same parameters and the same terminal layer, American
backward induction dominates European backward induction node by node —
provided the per-step risk-neutral probability
`p = (e^(r·dt) - d)/(u - d)` lies in `[0, 1]`.  The claim quantifies
over every `r`; for rates extreme enough that `p > 1` (or `p < 0`) the
weights turn negative and the ordering fails. -/

theorem crrLayerT_amer_ge (S K u d disc p : ℝ) (ot : OptType) (hot : ot ≠ OptType.other)
    (hdisc : 0 ≤ disc) (hp0 : 0 ≤ p) (hp1 : 0 ≤ 1 - p) (step : ℕ) (xs ys : List ℝ)
    (hxy : ∀ i, xs.getD i 0 ≤ ys.getD i 0) :
    ∀ i, (crrLayerT S K u d disc p ExStyle.european ot step xs).getD i 0 ≤
      (crrLayerT S K u d disc p ExStyle.american ot step ys).getD i 0 := by
  intro i
  rw [crrLayerT, crrLayerT, getD_map_range, getD_map_range]
  split_ifs with hi
  · have hev : disc * (p * xs.getD i 0 + (1 - p) * xs.getD (i + 1) 0) ≤
        disc * (p * ys.getD i 0 + (1 - p) * ys.getD (i + 1) 0) := by
      apply mul_le_mul_of_nonneg_left _ hdisc
      exact add_le_add (mul_le_mul_of_nonneg_left (hxy i) hp0)
        (mul_le_mul_of_nonneg_left (hxy (i + 1)) hp1)
    calc crrNodeT ExStyle.european ot K disc p (S * u ^ (step - i) * d ^ i)
          (xs.getD i 0) (xs.getD (i + 1) 0)
        = disc * (p * xs.getD i 0 + (1 - p) * xs.getD (i + 1) 0) := rfl
      _ ≤ disc * (p * ys.getD i 0 + (1 - p) * ys.getD (i + 1) 0) := hev
      _ ≤ crrNodeT ExStyle.american ot K disc p (S * u ^ (step - i) * d ^ i)
          (ys.getD i 0) (ys.getD (i + 1) 0) := by
        cases ot with
        | call => exact le_max_left _ _
        | put => exact le_max_left _ _
        | other => exact absurd rfl hot
  · exact le_refl 0

theorem crrLoopT_amer_ge (S K u d disc p : ℝ) (ot : OptType) (hot : ot ≠ OptType.other)
    (hdisc : 0 ≤ disc) (hp0 : 0 ≤ p) (hp1 : 0 ≤ 1 - p) :
    ∀ (n : ℕ) (xs ys : List ℝ), (∀ i, xs.getD i 0 ≤ ys.getD i 0) →
      ∀ i, (crrLoopT S K u d disc p ExStyle.european ot n xs).getD i 0 ≤
        (crrLoopT S K u d disc p ExStyle.american ot n ys).getD i 0 := by
  intro n
  induction n with
  | zero => exact fun xs ys h => h
  | succ n ih =>
    intro xs ys h i
    rw [crrLoopT, crrLoopT]
    exact ih _ _ (crrLayerT_amer_ge S K u d disc p ot hot hdisc hp0 hp1 n xs ys h) i

/-- C6 (amended): for every valid parameter set (`S, K, T, sigma > 0`,
`N > 0`, call or put) whose rate satisfies
`d <= e^(r·dt) <= u` — i.e. the risk-neutral probability `p` lies in
`[0, 1]`, which holds in particular whenever `|r|·dt <= sigma·sqrt(dt)` —
the American lattice price is greater than or equal to the European
lattice price.  For rates outside this band the ordering can fail
(see the counterexample). -/
theorem C6_american_ge_european (S K T r sigma : ℝ) (N : ℕ) (ot : OptType)
    (hS : 0 < S) (hK : 0 < K) (hT : 0 < T) (hsig : 0 < sigma) (hN : 0 < N)
    (hot : ot ≠ OptType.other)
    (hpl : 1 / Real.exp (sigma * Real.sqrt (T / N)) ≤ Real.exp (r * (T / N)))
    (hpu : Real.exp (r * (T / N)) ≤ Real.exp (sigma * Real.sqrt (T / N))) :
    ∀ pe pa, crr_binomial_pricer S K T r sigma N ot ExStyle.european = some pe →
      crr_binomial_pricer S K T r sigma N ot ExStyle.american = some pa →
      pe ≤ pa := by
  intro pe pa hpe hpa
  simp only [crr_binomial_pricer] at hpe hpa
  rw [crrLoop_eq _ _ _ _ _ _ _ _ (Or.inr hot), Option.map_some'] at hpe hpa
  obtain rfl := (Option.some.inj hpe).symm
  obtain rfl := (Option.some.inj hpa).symm
  have hdt : 0 < T / N := div_pos hT (by exact_mod_cast hN)
  have hx : 0 < sigma * Real.sqrt (T / N) := mul_pos hsig (Real.sqrt_pos.mpr hdt)
  have hu1 : 1 < Real.exp (sigma * Real.sqrt (T / N)) := by
    calc (1:ℝ) = Real.exp 0 := (Real.exp_zero).symm
    _ < Real.exp (sigma * Real.sqrt (T / N)) := Real.exp_lt_exp.mpr hx
  have hupos : 0 < Real.exp (sigma * Real.sqrt (T / N)) := Real.exp_pos _
  have hdlt : 1 / Real.exp (sigma * Real.sqrt (T / N)) < 1 := by
    rw [div_lt_one hupos]
    exact hu1
  have hud : 0 < Real.exp (sigma * Real.sqrt (T / N)) -
      1 / Real.exp (sigma * Real.sqrt (T / N)) := by linarith
  have hp0 : 0 ≤ (Real.exp (r * (T / N)) - 1 / Real.exp (sigma * Real.sqrt (T / N))) /
      (Real.exp (sigma * Real.sqrt (T / N)) - 1 / Real.exp (sigma * Real.sqrt (T / N))) :=
    div_nonneg (by linarith) (by linarith)
  have hp1 : 0 ≤ 1 - (Real.exp (r * (T / N)) - 1 / Real.exp (sigma * Real.sqrt (T / N))) /
      (Real.exp (sigma * Real.sqrt (T / N)) - 1 / Real.exp (sigma * Real.sqrt (T / N))) := by
    have hle : (Real.exp (r * (T / N)) - 1 / Real.exp (sigma * Real.sqrt (T / N))) /
        (Real.exp (sigma * Real.sqrt (T / N)) -
          1 / Real.exp (sigma * Real.sqrt (T / N))) ≤ 1 := by
      rw [div_le_one hud]
      linarith
    linarith
  exact crrLoopT_amer_ge S K (Real.exp (sigma * Real.sqrt (T / N)))
    (1 / Real.exp (sigma * Real.sqrt (T / N))) (Real.exp (-r * (T / N)))
    ((Real.exp (r * (T / N)) - 1 / Real.exp (sigma * Real.sqrt (T / N))) /
      (Real.exp (sigma * Real.sqrt (T / N)) - 1 / Real.exp (sigma * Real.sqrt (T / N))))
    ot hot (Real.exp_pos _).le hp0 hp1 N _ _ (fun i => le_refl _) 0

/-- Witness for the amended C6: an at-the-money put, `S = K = 4`,
`T = 1`, `r = 0`, `sigma = log 2`, `N = 1` (so `u = 2`, `d = 1/2`,
`p = 1/3`): both exercise styles price it at `4/3`. -/
theorem C6_witness :
    crr_binomial_pricer 4 4 1 0 (Real.log 2) 1 OptType.put ExStyle.european = some (4/3) ∧
    crr_binomial_pricer 4 4 1 0 (Real.log 2) 1 OptType.put ExStyle.american = some (4/3) ∧
    (4/3 : ℝ) ≤ 4/3 := by
  have hpe : crr_binomial_pricer 4 4 1 0 (Real.log 2) 1 OptType.put ExStyle.european =
      some (4/3) := by
    simp only [crr_binomial_pricer]
    rw [crrLoop_eq _ _ _ _ _ _ _ _ (Or.inl rfl)]
    norm_num [crrLoopT, crrLayerT, crrNodeT, terminalPayoff, List.range_succ, Real.sqrt_one,
      Real.exp_log, Real.exp_zero, max_def]
  have hpa : crr_binomial_pricer 4 4 1 0 (Real.log 2) 1 OptType.put ExStyle.american =
      some (4/3) := by
    simp only [crr_binomial_pricer]
    rw [crrLoop_eq _ _ _ _ _ _ _ _ (Or.inr (by simp))]
    norm_num [crrLoopT, crrLayerT, crrNodeT, terminalPayoff, List.range_succ, Real.sqrt_one,
      Real.exp_log, Real.exp_zero, max_def]
  refine ⟨hpe, hpa, ?_⟩
  apply C6_american_ge_european 4 4 1 0 (Real.log 2) 1 OptType.put (by norm_num) (by norm_num)
    (by norm_num) (Real.log_pos (by norm_num)) (by norm_num) (by simp) ?_ ?_ _ _ hpe hpa
  · norm_num [Real.sqrt_one, Real.exp_log, Real.exp_zero]
  · norm_num [Real.sqrt_one, Real.exp_log, Real.exp_zero]

/-- Counterexample to C6 as stated: with `S = K = 4`, `T = 2`,
`r = log 4`, `sigma = log 2`, `N = 2` (a put; here `u = 2`, `d = 1/2`,
`e^(r·dt) = 4`, so `p = 7/3 > 1`), the European price is `1/3` while the
American price is `0`: the American lattice price is strictly below the
European one. -/
theorem C6_counterexample :
    crr_binomial_pricer 4 4 2 (Real.log 4) (Real.log 2) 2 OptType.put ExStyle.european =
      some (1/3) ∧
    crr_binomial_pricer 4 4 2 (Real.log 4) (Real.log 2) 2 OptType.put ExStyle.american =
      some 0 ∧ ¬ ((1/3 : ℝ) ≤ 0) := by
  refine ⟨?_, ?_, by norm_num⟩
  · simp only [crr_binomial_pricer]
    rw [crrLoop_eq _ _ _ _ _ _ _ _ (Or.inl rfl)]
    norm_num [crrLoopT, crrLayerT, crrNodeT, terminalPayoff, List.range_succ, Real.sqrt_one,
      Real.exp_log, Real.exp_neg, max_def]
  · simp only [crr_binomial_pricer]
    rw [crrLoop_eq _ _ _ _ _ _ _ _ (Or.inr (by simp))]
    norm_num [crrLoopT, crrLayerT, crrNodeT, terminalPayoff, List.range_succ, Real.sqrt_one,
      Real.exp_log, Real.exp_neg, max_def]
